import Mathlib

/-!
Verification of the gencodec marshaling-code generator (src/main.go).

The development shallowly embeds the generator's core pipeline:
the wire-type builder (`newMarshalerType`), the override merger
(`loadOverrides`), the conversion synthesizer (`conversionExpr`),
the required-field decode codegen (`unmarshalFieldCode`), the
optionality/name helpers (`isOptional`, `encodedName`), and the
alias resolver (`computeImports`) together with the rendering of
the emitted import block.

Go's type system is represented by the fragment `GoType` actually
exercised by the generator (basic types, defined/named types,
pointers, slices, maps, channels).  The type predicates
`AssignableTo` and `ConvertibleTo` are executable models of the
corresponding go/types oracle (a library external to this
repository), restricted to that fragment, following the Go
specification's assignability and conversion rules.
-/

/-- Fragment of Go's type language used by the generator.  A named
(defined) type carries its package's display name, its package's
canonical import path, the type's own name, and its underlying type.
Types declared in the universe scope (basics) have no package. -/
inductive GoType where
  | basic : String → GoType
  | named : String → String → String → GoType → GoType
  | pointer : GoType → GoType
  | slice : GoType → GoType
  | map : GoType → GoType → GoType
  | chan : GoType → GoType
deriving DecidableEq, Repr

/-- Model of `go/types`: the underlying type of a defined type; every
other type is its own underlying type. -/
def underlying : GoType → GoType
  | .named _ _ _ u => underlying u
  | t => t

/-- Whether the type is a defined (named) type. -/
def isNamedT : GoType → Bool
  | .named _ _ _ _ => true
  | _ => false

/-- Model of `isPointer` (src/main.go): whether the type is an
(unnamed) pointer type. -/
def isPointer : GoType → Bool
  | .pointer _ => true
  | _ => false

/-- Element type of a pointer type (identity elsewhere); models
`typ.(*types.Pointer).Elem()`, which the generator only calls under an
`isPointer` guard. -/
def elemType : GoType → GoType
  | .pointer t => t
  | t => t

/-- Model of `ensurePointer` (src/main.go): wrap in a pointer unless
the type already is one. -/
def ensurePointer (typ : GoType) : GoType :=
  if isPointer typ then typ else GoType.pointer typ

/-- Basic kinds Go classifies as integers (including the aliases). -/
def integerKinds : List String :=
  ["int", "int8", "int16", "int32", "int64",
   "uint", "uint8", "uint16", "uint32", "uint64", "uintptr",
   "byte", "rune"]

/-- Whether the type's underlying type is an integer type. -/
def isIntegerT (t : GoType) : Bool :=
  match underlying t with
  | .basic k => integerKinds.contains k
  | _ => false

/-- Whether the type's underlying type is a floating-point type. -/
def isFloatT (t : GoType) : Bool :=
  match underlying t with
  | .basic k => k = "float32" || k = "float64"
  | _ => false

/-- Whether the type's underlying type is a complex type. -/
def isComplexT (t : GoType) : Bool :=
  match underlying t with
  | .basic k => k = "complex64" || k = "complex128"
  | _ => false

/-- Whether the type's underlying type is the string type. -/
def isStringT (t : GoType) : Bool :=
  match underlying t with
  | .basic k => k = "string"
  | _ => false

/-- Whether the type's underlying type is a slice of bytes or runes
(Go's `[]byte` / `[]rune` conversion rule). -/
def isBytesOrRunes (t : GoType) : Bool :=
  match underlying t with
  | .slice e =>
    match underlying e with
    | .basic k => k = "byte" || k = "uint8" || k = "rune" || k = "int32"
    | _ => false
  | _ => false

/-- Model of `go/types.AssignableTo` on the `GoType` fragment: the
types are identical, or they have identical underlying types and at
least one of them is not a defined type. -/
def AssignableTo (V T : GoType) : Bool :=
  V = T || (underlying V = underlying T && (!isNamedT V || !isNamedT T))

/-- Model of `go/types.ConvertibleTo` on the `GoType` fragment,
following the Go specification's conversion rules: assignability;
identical underlying types; unnamed pointer types whose base types
have identical underlying types; both numeric; both complex; integer
or byte/rune slice to string; string to byte/rune slice.  Note the
relation is not symmetric: an integer type converts to `string` but
not conversely. -/
def ConvertibleTo (V T : GoType) : Bool :=
  AssignableTo V T
  || underlying V = underlying T
  || (match V, T with
      | .pointer pv, .pointer pt => underlying pv = underlying pt
      | _, _ => false)
  || ((isIntegerT V || isFloatT V) && (isIntegerT T || isFloatT T))
  || (isComplexT V && isComplexT T)
  || ((isIntegerT V || isBytesOrRunes V) && isStringT T)
  || (isStringT V && isBytesOrRunes T)

/-- A field's struct tag, modelled as the key/value pairs it carries.
Access through `reflect.StructTag.Get` (standard library, external to
this repository) is modelled as first-match association lookup. -/
abbrev Tag := List (String × String)

/-- Model of `reflect.StructTag.Get`: value bound to the key, or the
empty string when the key is absent. -/
def tagGet (tag : Tag) (key : String) : String :=
  match tag.find? (fun kv => kv.1 == key) with
  | some kv => kv.2
  | none => ""

/-- Model of `reflect.StructTag.Lookup`: value bound to the key when
present. -/
def tagLookup (tag : Tag) (key : String) : Option String :=
  (tag.find? (fun kv => kv.1 == key)).map (·.2)

/-- Model of `go/types.Var` as used by the generator: a struct field's
name, declared type, visibility, embedded-ness and source position. -/
structure Var where
  name : String
  typ : GoType
  exported : Bool
  anonymous : Bool
  pos : String
deriving DecidableEq, Repr

/-- One field of the input struct: the descriptor together with its
raw tag (`styp.Field(i)` and `styp.Tag(i)`). -/
structure StructField where
  var : Var
  tag : Tag
deriving DecidableEq, Repr

/-- `marshalerField` (src/main.go): a field of the intermediate
marshaling type.  `field` is the original descriptor, `typ` the wire
type. -/
structure MarshalerField where
  field : Var
  tag : Tag
  typ : GoType
deriving DecidableEq, Repr

/-- `marshalerType` (src/main.go): the intermediate struct type fed to
the code templates.  `origPkgPath` identifies the original type's own
package (used to decide qualification and import registration). -/
structure MarshalerType where
  OrigName : String
  Name : String
  Fields : List MarshalerField
  origPkgPath : String
deriving DecidableEq, Repr

/-- Model of `marshalerType.typeString`: render a type, qualifying
named types from other packages with their package's display name. -/
def typeString (origPkgPath : String) : GoType → String
  | .basic n => n
  | .named pkgName pkgPath n _ =>
    if pkgPath = origPkgPath then n else pkgName ++ "." ++ n
  | .pointer t => "*" ++ typeString origPkgPath t
  | .slice t => "[]" ++ typeString origPkgPath t
  | .map k v => "map[" ++ typeString origPkgPath k ++ "]" ++ typeString origPkgPath v
  | .chan t => "chan " ++ typeString origPkgPath t

/-- Model of `marshalerField.errorf`: position-prefixed message naming
the original type and the field. -/
def errorfMsg (origName : String) (f : Var) (msg : String) : String :=
  f.pos ++ ": (" ++ origName ++ "." ++ f.name ++ ") " ++ msg

/-- The field-collection loop of `newMarshalerType`: skip unexported
fields silently; skip embedded (anonymous) fields with a warning;
otherwise keep the field with its declared type pointer-wrapped and
its tag carried over.  Returns the retained fields and the warnings in
order. -/
def collectFields (origName : String) : List StructField → List MarshalerField × List String
  | [] => ([], [])
  | sf :: rest =>
    let (fs, ws) := collectFields origName rest
    if !sf.var.exported then (fs, ws)
    else
      let mf : MarshalerField := { field := sf.var, tag := sf.tag, typ := ensurePointer sf.var.typ }
      if sf.var.anonymous then
        (fs, errorfMsg origName mf.field "Warning: ignoring embedded field" :: ws)
      else (mf :: fs, ws)

/-- Model of `newMarshalerType` (src/main.go): build the intermediate
marshaling type from the original struct's fields; also returns the
warnings emitted to the error stream. -/
def newMarshalerType (origName origPkgPath : String) (styp : List StructField) :
    MarshalerType × List String :=
  let (fs, ws) := collectFields origName styp
  ({ OrigName := origName, Name := origName ++ "JSON", Fields := fs,
     origPkgPath := origPkgPath }, ws)

/-- Model of `marshalerType.fieldByName`: first field whose original
descriptor has the given name. -/
def fieldByName (fields : List MarshalerField) (name : String) : Option MarshalerField :=
  fields.find? (fun f => f.field.name == name)

/-- Replace the wire type of the first field with the given name
(the in-place `f.typ = ...` mutation through the pointer returned by
`fieldByName`). -/
def setFieldTyp : List MarshalerField → String → GoType → List MarshalerField
  | [], _, _ => []
  | f :: fs, name, t =>
    if f.field.name == name then { f with typ := t } :: fs
    else f :: setFieldTyp fs name t

/-- Model of `marshalerType.loadOverrides` (src/main.go): for each
override field, fail on embedded or unexported fields, fail when no
field of the original type matches by name, fail when the override
type is not convertible to the matched field's original declared type,
and otherwise replace the matched field's wire type with the
pointer-wrapped override type.  Fatal exits are modelled as `.error`
carrying the message printed by `fatalf`. -/
def loadOverrides (mtyp : MarshalerType) : List Var → Except String MarshalerType
  | [] => .ok mtyp
  | of :: rest =>
    if of.anonymous || !of.exported then
      .error (of.pos ++ ": field override type cannot have embedded or unexported fields")
    else
      match fieldByName mtyp.Fields of.name with
      | none =>
        .error (of.pos ++ ": no matching field for " ++ of.name ++
          " in original type " ++ mtyp.OrigName)
      | some f =>
        if !ConvertibleTo of.typ f.field.typ then
          .error (of.pos ++ ": field override type " ++ typeString mtyp.origPkgPath of.typ ++
            " is not convertible to " ++ typeString mtyp.origPkgPath f.field.typ)
        else
          loadOverrides
            { mtyp with Fields := setFieldTyp mtyp.Fields of.name (ensurePointer of.typ) }
            rest

/-- Model of `conversionExpr` (src/main.go): normalize a pointer
mismatch between the source and destination types by dereferencing or
address-taking, then return the expression unchanged when assignable
and an explicit coercion otherwise. -/
def conversionExpr (origPkgPath valueExpr : String) (fromTy toTy : GoType) : String :=
  let (valueExpr, fromTy) :=
    if isPointer fromTy && !isPointer toTy then
      ("*" ++ valueExpr, elemType fromTy)
    else if !isPointer fromTy && isPointer toTy then
      ("&" ++ valueExpr, GoType.pointer fromTy)
    else (valueExpr, fromTy)
  if AssignableTo fromTy toTy then valueExpr
  else "(" ++ typeString origPkgPath toTy ++ ")(" ++ valueExpr ++ ")"

/-- Model of `marshalerField.Convert`: original-to-wire conversion of
the field selected from the given variable. -/
def Convert (m : MarshalerType) (v : String) (mf : MarshalerField) : String :=
  conversionExpr m.origPkgPath (v ++ "." ++ mf.field.name) mf.field.typ mf.typ

/-- Model of `marshalerField.ConvertBack`: wire-to-original conversion
of the field selected from the given variable. -/
def ConvertBack (m : MarshalerType) (v : String) (mf : MarshalerField) : String :=
  conversionExpr m.origPkgPath (v ++ "." ++ mf.field.name) mf.typ mf.field.typ

/-- Model of `uncapitalize` (src/main.go): lower-case the first
character. -/
def uncapitalize (s : String) : String :=
  (s.take 1).toLower ++ s.drop 1

/-- Model of `marshalerField.isOptional` (src/main.go): the `optional`
tag carries `true` or `yes`, or the format's tag value starts with
`-`. -/
def isOptional (tag : Tag) (format : String) : Bool :=
  if tagGet tag "optional" = "true" || tagGet tag "optional" = "yes" then true
  else (tagGet tag format).startsWith "-"

/-- Model of `strings.Index(val, ",")`: index of the first comma, or
`none` for Go's `-1`. -/
def indexOfComma : List Char → Option Nat
  | [] => none
  | c :: cs => if c = ',' then some 0 else (indexOfComma cs).map (· + 1)

/-- Model of `marshalerField.encodedName` (src/main.go): the format
tag's value truncated at the first comma; when that is empty or `-`,
the field name with its first character lower-cased. -/
def encodedName (tag : Tag) (format : String) (name : String) : String :=
  let val := tagGet tag format
  let val :=
    match indexOfComma val.data with
    | some comma => String.mk (val.data.take comma)
    | none => val
  if val = "" || val = "-" then uncapitalize name else val

/-- Per-field decode snippet generated by
`marshalerType.UnmarshalConversions` (src/main.go): a non-null guard
for optional fields, a null check returning a missing-field error
followed by the assignment for required fields. -/
def unmarshalFieldCode (m : MarshalerType) (formatTag : String) (mf : MarshalerField) : String :=
  let typName := formatTag.toUpper ++ " " ++ m.OrigName
  let name := mf.field.name
  let encName := encodedName mf.tag formatTag name
  let conv := ConvertBack m "dec" mf
  if isOptional mf.tag formatTag then
    "if dec." ++ name ++ " != nil \x7b\n\tv." ++ name ++ " = " ++ conv ++ "\n\x7d"
  else
    "if dec." ++ name ++ " == nil \x7b\n\treturn errors.New(\"missing required field \x27" ++
      encName ++ "\x27 in " ++ typName ++ "\")\n\x7d\nv." ++ name ++ " = " ++ conv

/-- Model of `marshalerType.UnmarshalConversions`: concatenation of
the per-field decode snippets in field order. -/
def UnmarshalConversions (m : MarshalerType) (formatTag : String) : String :=
  String.join (m.Fields.map (fun mf => unmarshalFieldCode m formatTag mf ++ "\n"))

/-- The field-initializer lines of the struct literal built by the
`MarshalJSON` template: one `Name: Convert` entry per field,
unconditionally. -/
def jsonMarshalBody (m : MarshalerType) : String :=
  String.join (m.Fields.map (fun mf =>
    "\t\t" ++ mf.field.name ++ ": " ++ Convert m "x" mf ++ ",\n"))

/-- The field-initializer lines of the struct literal built by the
`MarshalYAML` template: one `Name: Convert` entry per field,
unconditionally. -/
def yamlMarshalBody (m : MarshalerType) : String :=
  String.join (m.Fields.map (fun mf =>
    "\t\t" ++ mf.field.name ++ ": " ++ Convert m "x" mf ++ ",\n"))

/-- Model of `marshalerType.JSONMarshalMethod`: the rendered
`MarshalJSON` method (whitespace normalized). -/
def JSONMarshalMethod (m : MarshalerType) : String :=
  "func (x *" ++ m.OrigName ++ ") MarshalJSON() ([]byte, error) \x7b\n" ++
    "\treturn json.Marshal(&" ++ m.Name ++ "\x7b\n" ++ jsonMarshalBody m ++ "\t\x7d)\n\x7d"

/-- Model of `marshalerType.YAMLMarshalMethod`: the rendered
`MarshalYAML` method (whitespace normalized). -/
def YAMLMarshalMethod (m : MarshalerType) : String :=
  "func (x *" ++ m.OrigName ++ ") MarshalYAML() (interface\x7b\x7d, error) \x7b\n" ++
    "\treturn &" ++ m.Name ++ "\x7b\n" ++ yamlMarshalBody m ++ "\t\x7d, nil\n\x7d"

/-- Model of `walkNamedTypes` (src/main.go), reified as the list of
visited named types' packages, in visit order: each entry is the
package's declared display name and its canonical path. -/
def walkNamedTypes : GoType → List (String × String)
  | .basic _ => []
  | .chan t => walkNamedTypes t
  | .map k v => walkNamedTypes k ++ walkNamedTypes v
  | .named pkgName pkgPath _ _ => [(pkgName, pkgPath)]
  | .pointer t => walkNamedTypes t
  | .slice t => walkNamedTypes t

/-- First value bound to the key in an association list, or the empty
string — the read `seen[name]` of a Go `map[string]string`. -/
def lookupD (l : List (String × String)) (k : String) : String :=
  match l.find? (fun kv => kv.1 == k) with
  | some kv => kv.2
  | none => ""

/-- The write `m[k] = v` of a Go `map[string]string`: replace the
binding when the key is present, append it otherwise. -/
def setAssoc : List (String × String) → String → String → List (String × String)
  | [], k, v => [(k, v)]
  | kv :: rest, k, v =>
    if kv.1 == k then (k, v) :: rest else kv :: setAssoc rest k v

/-- State threaded through `computeImports`: the `seen` alias table
(alias name to import path), the collision `counter`, and the current
display names of the renamed packages (path to name) — the effect of
the `pkg.SetName` mutations. -/
structure ImportState where
  seen : List (String × String)
  counter : Nat
  pkgNames : List (String × String)
deriving DecidableEq, Repr

/-- Current display name of the package with the given path: the last
`SetName` if any, the declared name otherwise. -/
def getPkgName (st : ImportState) (path declared : String) : String :=
  match st.pkgNames.find? (fun kv => kv.1 == path) with
  | some kv => kv.2
  | none => declared

/-- Model of the `add` closure in `computeImports` (src/main.go).
When the name is not bound to this path, a package (non-`nil` case) is
first renamed by prefixing `_`; if the resulting name is bound at all,
a `_<counter>` suffix is appended; the final name is then bound to the
path.  A `none` package (the two pre-seeded imports) is registered
without renaming. -/
def addImport (st : ImportState) (name path : String) (pkg : Option String) : ImportState :=
  if lookupD st.seen name ≠ path then
    let renamed :=
      match pkg with
      | some p => ("_" ++ name, setAssoc st.pkgNames p ("_" ++ name))
      | none => (name, st.pkgNames)
    let name1 := renamed.1
    if lookupD st.seen name1 ≠ "" then
      let name2 := name1 ++ "_" ++ toString st.counter
      let pkgNames2 :=
        match pkg with
        | some p => setAssoc renamed.2 p name2
        | none => renamed.2
      { seen := setAssoc st.seen name2 path, counter := st.counter + 1, pkgNames := pkgNames2 }
    else
      { st with seen := setAssoc st.seen name1 path, pkgNames := renamed.2 }
  else st

/-- Model of the `addNamed` closure in `computeImports`: register the
package of a visited named type unless it is the original type's own
package; the name passed to `add` is the package's current display
name. -/
def addNamed (origPkgPath : String) (st : ImportState) (p : String × String) : ImportState :=
  if p.2 ≠ origPkgPath then addImport st (getPkgName st p.2 p.1) p.2 (some p.2) else st

/-- Model of `marshalerType.computeImports` (src/main.go): pre-seed
`json` and `errors`, then walk each field's wire type and original
declared type in field order, registering every named type's
package. -/
def computeImports (m : MarshalerType) : ImportState :=
  let st0 : ImportState := { seen := [], counter := 0, pkgNames := [] }
  let st1 := addImport st0 "json" "encoding/json" none
  let st2 := addImport st1 "errors" "errors" none
  m.Fields.foldl (fun st f =>
    let st := (walkNamedTypes f.typ).foldl (addNamed m.origPkgPath) st
    (walkNamedTypes f.field.typ).foldl (addNamed m.origPkgPath) st) st2

/-- Key-then-value lexicographic order on import entries.  With the
distinct keys of a Go map this orders entries exactly by key, which is
the order `text/template` uses when ranging over a map. -/
def importLE (a b : String × String) : Prop :=
  a.1 < b.1 ∨ (a.1 = b.1 ∧ a.2 ≤ b.2)

instance : DecidableRel importLE := fun a b => by
  unfold importLE; infer_instance

instance : IsTotal (String × String) importLE where
  total a b := by
    rcases lt_trichotomy a.1 b.1 with h | h | h
    · exact Or.inl (Or.inl h)
    · rcases le_total a.2 b.2 with h2 | h2
      · exact Or.inl (Or.inr ⟨h, h2⟩)
      · exact Or.inr (Or.inr ⟨h.symm, h2⟩)
    · exact Or.inr (Or.inl h)

instance : IsTrans (String × String) importLE where
  trans a b c hab hbc := by
    rcases hab with h1 | ⟨e1, l1⟩
    · rcases hbc with h2 | ⟨e2, _⟩
      · exact Or.inl (h1.trans h2)
      · exact Or.inl (e2 ▸ h1)
    · rcases hbc with h2 | ⟨e2, l2⟩
      · exact Or.inl (e1 ▸ h2)
      · exact Or.inr ⟨e1.trans e2, l1.trans l2⟩

instance : IsAntisymm (String × String) importLE where
  antisymm a b hab hba := by
    rcases hab with h1 | ⟨e1, l1⟩
    · rcases hba with h2 | ⟨e2, _⟩
      · exact absurd (h1.trans h2) (lt_irrefl _)
      · exact absurd h1 (e2 ▸ lt_irrefl _)
    · rcases hba with h2 | ⟨e2, l2⟩
      · exact absurd h2 (e1 ▸ lt_irrefl _)
      · exact Prod.ext e1 (le_antisymm l1 l2)

/-- The key ordering applied to the alias table before emission,
modelling `text/template`'s sorted iteration over map keys when the
emitted import block's template ranges over the `computeImports`
result. -/
def sortImports (entries : List (String × String)) : List (String × String) :=
  entries.insertionSort importLE

/-- Rendering of the import block template in `makeMarshalingCode`
(src/main.go): one line per alias/path pair, in the template's map
iteration order (sorted by key). -/
def renderImports (entries : List (String × String)) : String :=
  "imp" ++ "ort (" ++
    String.join ((sortImports entries).map (fun e => "\n\t" ++ e.1 ++ " \"" ++ e.2 ++ "\"")) ++
    "\n)"

/-! ### Helper lemmas -/

theorem ensurePointer_isPointer (t : GoType) : isPointer (ensurePointer t) = true := by
  cases t <;> rfl

theorem collectFields_eq (origName : String) (styp : List StructField) :
    collectFields origName styp =
      ((styp.filter (fun sf => sf.var.exported && !sf.var.anonymous)).map
        (fun sf => { field := sf.var, tag := sf.tag, typ := ensurePointer sf.var.typ }),
       (styp.filter (fun sf => sf.var.exported && sf.var.anonymous)).map
        (fun sf => errorfMsg origName sf.var "Warning: ignoring embedded field")) := by
  induction styp with
  | nil => rfl
  | cons sf rest ih =>
    unfold collectFields
    rw [ih]
    cases he : sf.var.exported <;> cases ha : sf.var.anonymous <;>
      simp [he, ha, List.filter_cons]

theorem tagGet_eq_getD (tag : Tag) (key : String) :
    tagGet tag key = (tagLookup tag key).getD "" := by
  unfold tagGet tagLookup
  cases tag.find? (fun kv => kv.1 == key) <;> rfl

theorem string_mk_data (s : String) : String.mk s.data = s := by
  cases s; rfl

theorem indexOfComma_take (l : List Char) :
    (match indexOfComma l with
     | some i => l.take i
     | none => l) = l.takeWhile (fun c => !decide (c = ',')) := by
  induction l with
  | nil => rfl
  | cons c cs ih =>
    unfold indexOfComma
    by_cases hc : c = ','
    · simp [hc, List.takeWhile_cons]
    · rw [if_neg hc]
      cases hi : indexOfComma cs with
      | none =>
        rw [hi] at ih
        simp only [hi, Option.map_none', List.takeWhile_cons]
        simp [hc, ← ih]
      | some i =>
        rw [hi] at ih
        simp only [hi, Option.map_some', List.takeWhile_cons]
        simp [hc, List.take_succ_cons, ← ih]

/-! ### Claim C3 -/

/-- Modelled from the spec (§4.3), for comparison with
`conversionExpr`: the normalization step — unwrap when only the source
type is nullable-wrapped, wrap when only the destination type is, and
adjust the source type accordingly. -/
def specNormalize (valueExpr : String) (fromTy toTy : GoType) : String × GoType :=
  if isPointer fromTy ∧ ¬isPointer toTy then ("*" ++ valueExpr, elemType fromTy)
  else if ¬isPointer fromTy ∧ isPointer toTy then ("&" ++ valueExpr, GoType.pointer fromTy)
  else (valueExpr, fromTy)

/-- Modelled from the spec (§4.3): after normalization, the identity
expression when the adjusted source type is assignable to the
destination, otherwise an explicit coercion. -/
def specConversion (origPkgPath valueExpr : String) (fromTy toTy : GoType) : String :=
  let n := specNormalize valueExpr fromTy toTy
  if AssignableTo n.2 toTy then n.1
  else "(" ++ typeString origPkgPath toTy ++ ")(" ++ n.1 ++ ")"

/-- Claim C3: for every value expression and (from, to) type pair, the
synthesized conversion follows exactly the spec's rules — dereference
when only `from` is pointer-wrapped, address-take when only `to` is,
then the identity expression under assignability and an explicit
coercion otherwise. -/
theorem conversionExpr_follows_spec_rules
    (origPkgPath valueExpr : String) (fromTy toTy : GoType) :
    conversionExpr origPkgPath valueExpr fromTy toTy =
      specConversion origPkgPath valueExpr fromTy toTy := by
  unfold conversionExpr specConversion specNormalize
  cases hf : isPointer fromTy <;> cases ht : isPointer toTy <;> simp [hf, ht]

/-! ### Claim C4 -/

/-- Claim C4: the wire record contains a field for exactly the visible
(exported), non-embedded descriptors, in declaration order, each with
the pointer-wrapped declared type and the tag copied verbatim; and the
warnings are exactly one per exported embedded field. -/
theorem newMarshalerType_fields_characterization
    (origName origPkgPath : String) (styp : List StructField) :
    (newMarshalerType origName origPkgPath styp).1.Fields =
      (styp.filter (fun sf => sf.var.exported && !sf.var.anonymous)).map
        (fun sf => { field := sf.var, tag := sf.tag, typ := ensurePointer sf.var.typ }) ∧
    (newMarshalerType origName origPkgPath styp).2 =
      (styp.filter (fun sf => sf.var.exported && sf.var.anonymous)).map
        (fun sf => errorfMsg origName sf.var "Warning: ignoring embedded field") := by
  unfold newMarshalerType
  rw [collectFields_eq]
  exact ⟨rfl, rfl⟩

/-! ### Claim C5 -/

/-- Modelled from the spec (§4.4): decode shape for an optional field
— assign the converted value only under a non-null guard on the
decoded wire field; no error path. -/
def optionalDecodeShape (name conv : String) : String :=
  "if dec." ++ name ++ " != nil \x7b\n\tv." ++ name ++ " = " ++ conv ++ "\n\x7d"

/-- Modelled from the spec (§4.4): decode shape for a required field —
when the decoded wire field is null, return an error naming the
encoded field name and the record name together with the format;
otherwise assign the converted value. -/
def requiredDecodeShape (name encName typName conv : String) : String :=
  "if dec." ++ name ++ " == nil \x7b\n\treturn errors.New(\"missing required field \x27" ++
    encName ++ "\x27 in " ++ typName ++ "\")\n\x7d\nv." ++ name ++ " = " ++ conv

/-- Claim C5: for every field and each format, the generated per-field
decode logic has exactly two shapes — the guarded assignment when the
field is optional, and the null check returning an error that names
the encoded field name and the record name with the upper-cased format
followed by the assignment when the field is required. -/
theorem unmarshalFieldCode_shapes (m : MarshalerType) (format : String) (mf : MarshalerField) :
    unmarshalFieldCode m format mf =
      if isOptional mf.tag format then
        optionalDecodeShape mf.field.name (ConvertBack m "dec" mf)
      else
        requiredDecodeShape mf.field.name (encodedName mf.tag format mf.field.name)
          (format.toUpper ++ " " ++ m.OrigName) (ConvertBack m "dec" mf) := by
  unfold unmarshalFieldCode optionalDecodeShape requiredDecodeShape
  cases h : isOptional mf.tag format <;> simp [h]

/-! ### Claim C6 -/

/-- Claim C6: a field is classified optional for a format if and only
if its `optional` tag carries one of the two accepted literal values
(`true` or `yes`), or the format's tag value is present and begins
with the omit sentinel `-`. -/
theorem isOptional_characterization (tag : Tag) (format : String) :
    isOptional tag format = true ↔
      (tagGet tag "optional" = "true" ∨ tagGet tag "optional" = "yes") ∨
      ∃ v, tagLookup tag format = some v ∧ v.startsWith "-" = true := by
  unfold isOptional
  by_cases h : tagGet tag "optional" = "true" ∨ tagGet tag "optional" = "yes"
  · rcases h with h | h <;> simp [h]
  · rw [if_neg (by simpa using h)]
    rw [tagGet_eq_getD]
    cases hv : tagLookup tag format with
    | none =>
      simp only [hv, Option.getD_none]
      constructor
      · intro hs; exact absurd hs (by decide)
      · rintro (hopt | ⟨v, hveq, _⟩)
        · exact absurd hopt h
        · exact absurd hveq (by simp [hv])
    | some v =>
      simp only [hv, Option.getD_some]
      constructor
      · intro hs; exact Or.inr ⟨v, rfl, hs⟩
      · rintro (hopt | ⟨w, hw, hws⟩)
        · exact absurd hopt h
        · cases hw; exact hws

/-! ### Claim C7 -/

/-- Modelled from the spec (§4.4): the text of a tag value before the
first separator. -/
def textBeforeComma (s : String) : String :=
  String.mk (s.data.takeWhile (fun c => !decide (c = ',')))

/-- Claim C7: the encoded name is the format tag's value truncated at
the first separator; when that truncated value is absent (empty) or is
the omit sentinel `-`, it falls back to the field name with its first
character lower-cased. -/
theorem encodedName_characterization (tag : Tag) (format : String) (name : String) :
    encodedName tag format name =
      (let v := textBeforeComma (tagGet tag format)
       if v = "" ∨ v = "-" then uncapitalize name else v) := by
  unfold encodedName textBeforeComma
  rw [← indexOfComma_take (tagGet tag format).data]
  cases hi : indexOfComma (tagGet tag format).data with
  | none => simp [hi, string_mk_data]
  | some i => simp [hi]

/-! ### Claim C8 -/

/-- Replace every field's tag; used to state that the encode bodies do
not depend on the tags (hence not on optionality). -/
def retagFields (m : MarshalerType) (t : MarshalerField → Tag) : MarshalerType :=
  { m with Fields := m.Fields.map (fun mf => { mf with tag := t mf }) }

/-- Claim C8: both generated encode bodies populate every wire field,
without exception, from the original record through the conversion
synthesizer — one `Convert` entry per field over the whole field list
— and are invariant under arbitrary changes of the fields' tags, so
optionality has no effect on the encode side. -/
theorem marshalBody_unconditional (m : MarshalerType) (t : MarshalerField → Tag) :
    jsonMarshalBody (retagFields m t) = jsonMarshalBody m ∧
    yamlMarshalBody (retagFields m t) = yamlMarshalBody m ∧
    jsonMarshalBody m =
      String.join (m.Fields.map (fun mf =>
        "\t\t" ++ mf.field.name ++ ": " ++ Convert m "x" mf ++ ",\n")) ∧
    yamlMarshalBody m =
      String.join (m.Fields.map (fun mf =>
        "\t\t" ++ mf.field.name ++ ": " ++ Convert m "x" mf ++ ",\n")) := by
  refine ⟨?_, ?_, rfl, rfl⟩ <;>
  · simp only [jsonMarshalBody, yamlMarshalBody, retagFields, List.map_map]
    exact congrArg String.join (List.map_congr_left (fun mf _ => rfl))

/-! ### Override-merger lemmas -/

theorem setFieldTyp_map_field (fields : List MarshalerField) (n : String) (t : GoType) :
    (setFieldTyp fields n t).map (fun f => f.field) = fields.map (fun f => f.field) := by
  induction fields with
  | nil => rfl
  | cons f fs ih =>
    cases h : f.field.name == n <;> simp [setFieldTyp, h, ih]

theorem fieldByName_eq_find (l : List MarshalerField) (name : String) :
    (fieldByName l name).map (fun f => f.field) =
      (l.map (fun f => f.field)).find? (fun v => v.name == name) := by
  induction l with
  | nil => rfl
  | cons f fs ih =>
    cases h : f.field.name == name <;>
      simp [fieldByName, List.find?, h, ← ih, fieldByName]

theorem fieldByName_setFieldTyp_self (l : List MarshalerField) (n : String) (t : GoType) :
    fieldByName (setFieldTyp l n t) n =
      (fieldByName l n).map (fun f => { f with typ := t }) := by
  induction l with
  | nil => rfl
  | cons f fs ih =>
    cases h : f.field.name == n
    · simp only [setFieldTyp, fieldByName, List.find?, h]
      exact ih
    · simp [setFieldTyp, fieldByName, List.find?, h]

theorem fieldByName_setFieldTyp_other (l : List MarshalerField) (n name : String) (t : GoType)
    (hne : n ≠ name) :
    fieldByName (setFieldTyp l n t) name = fieldByName l name := by
  induction l with
  | nil => rfl
  | cons f fs ih =>
    cases h : f.field.name == n
    · cases h2 : f.field.name == name
      · simp only [setFieldTyp, fieldByName, List.find?, h, h2]
        exact ih
      · simp [setFieldTyp, fieldByName, List.find?, h, h2]
    · have h2 : (f.field.name == name) = false := by
        rw [beq_iff_eq] at h
        simp [h, hne]
      simp [setFieldTyp, fieldByName, List.find?, h, h2]

theorem loadOverrides_ok_forward (ofs : List Var) (m m' : MarshalerType)
    (h : loadOverrides m ofs = .ok m') :
    ∀ of ∈ ofs, of.exported = true ∧ of.anonymous = false ∧
      ∃ f, fieldByName m.Fields of.name = some f ∧ ConvertibleTo of.typ f.field.typ = true := by
  induction ofs generalizing m with
  | nil => intro of hof; cases hof
  | cons o rest ih =>
    unfold loadOverrides at h
    split at h
    · exact absurd h (by simp)
    · rename_i hflags
      split at h
      · exact absurd h (by simp)
      · rename_i f hf
        split at h
        · exact absurd h (by simp)
        · rename_i hconv
          intro of hof
          have hflags' : o.anonymous = false ∧ o.exported = true := by
            simpa using hflags
          have hconv' : ConvertibleTo o.typ f.field.typ = true := by
            simpa using hconv
          rcases List.mem_cons.mp hof with rfl | htail
          · exact ⟨hflags'.2, hflags'.1, f, hf, hconv'⟩
          · have hrec := ih _ h of htail
            refine ⟨hrec.1, hrec.2.1, ?_⟩
            rcases hrec.2.2 with ⟨f₂, hf₂, hc₂⟩
            have hf₂' :
                fieldByName (setFieldTyp m.Fields o.name (ensurePointer o.typ)) of.name =
                  some f₂ := hf₂
            have hmap :
                (fieldByName m.Fields of.name).map (fun f => f.field) =
                  (fieldByName
                    (setFieldTyp m.Fields o.name (ensurePointer o.typ)) of.name).map
                      (fun f => f.field) := by
              rw [fieldByName_eq_find, fieldByName_eq_find, setFieldTyp_map_field]
            rw [hf₂', Option.map_some'] at hmap
            rcases Option.map_eq_some'.mp hmap with ⟨f₁, hf₁, hfield⟩
            exact ⟨f₁, hf₁, by rw [hfield]; exact hc₂⟩

theorem loadOverrides_preserves_other (ofs : List Var) (m m' : MarshalerType) (name : String)
    (h : loadOverrides m ofs = .ok m') (hn : name ∉ ofs.map (fun o => o.name)) :
    fieldByName m'.Fields name = fieldByName m.Fields name := by
  induction ofs generalizing m with
  | nil =>
    unfold loadOverrides at h
    cases h
    rfl
  | cons o rest ih =>
    unfold loadOverrides at h
    split at h
    · exact absurd h (by simp)
    · split at h
      · exact absurd h (by simp)
      · split at h
        · exact absurd h (by simp)
        · rename_i f hf hconv
          simp only [List.map_cons, List.mem_cons, not_or] at hn
          have hrest := ih _ h hn.2
          rw [hrest]
          exact fieldByName_setFieldTyp_other m.Fields o.name name (ensurePointer o.typ)
            (fun e => hn.1 e.symm)

theorem loadOverrides_replaces (ofs : List Var) (m m' : MarshalerType)
    (h : loadOverrides m ofs = .ok m')
    (hnd : (ofs.map (fun o => o.name)).Nodup) :
    ∀ of ∈ ofs, ∃ f', fieldByName m'.Fields of.name = some f' ∧
      f'.typ = ensurePointer of.typ := by
  induction ofs generalizing m with
  | nil => intro of hof; cases hof
  | cons o rest ih =>
    unfold loadOverrides at h
    split at h
    · exact absurd h (by simp)
    · split at h
      · exact absurd h (by simp)
      · rename_i f hf
        split at h
        · exact absurd h (by simp)
        · intro of hof
          simp only [List.map_cons, List.nodup_cons] at hnd
          rcases List.mem_cons.mp hof with rfl | htail
          · have hpres := loadOverrides_preserves_other rest _ m' of.name h
              (by simpa using hnd.1)
            refine ⟨{ f with typ := ensurePointer of.typ }, ?_, rfl⟩
            rw [hpres]
            show fieldByName (setFieldTyp m.Fields of.name (ensurePointer of.typ)) of.name = _
            rw [fieldByName_setFieldTyp_self, hf]
            rfl
          · exact ih _ h hnd.2 of htail

theorem setFieldTyp_pointer (l : List MarshalerField) (n : String) (t : GoType)
    (hl : ∀ f ∈ l, isPointer f.typ = true) (ht : isPointer t = true) :
    ∀ f ∈ setFieldTyp l n t, isPointer f.typ = true := by
  induction l with
  | nil => intro f hf; cases hf
  | cons g gs ih =>
    intro f hf
    unfold setFieldTyp at hf
    by_cases h : (g.field.name == n) = true
    · rw [if_pos h] at hf
      rcases List.mem_cons.mp hf with rfl | hmem
      · exact ht
      · exact hl f (List.mem_cons_of_mem g hmem)
    · rw [if_neg h] at hf
      rcases List.mem_cons.mp hf with rfl | hmem
      · exact hl f (List.mem_cons_self f gs)
      · exact ih (fun f hf => hl f (List.mem_cons_of_mem g hf)) f hmem

theorem loadOverrides_preserves_pointer (ofs : List Var) (m m' : MarshalerType)
    (h : loadOverrides m ofs = .ok m')
    (hm : ∀ f ∈ m.Fields, isPointer f.typ = true) :
    ∀ f ∈ m'.Fields, isPointer f.typ = true := by
  induction ofs generalizing m with
  | nil =>
    unfold loadOverrides at h
    cases h
    exact hm
  | cons o rest ih =>
    unfold loadOverrides at h
    split at h
    · exact absurd h (by simp)
    · split at h
      · exact absurd h (by simp)
      · split at h
        · exact absurd h (by simp)
        · exact ih _ h (setFieldTyp_pointer m.Fields o.name (ensurePointer o.typ) hm
            (ensurePointer_isPointer o.typ))

theorem newMarshalerType_fields_pointer (origName origPkgPath : String)
    (styp : List StructField) :
    ∀ mf ∈ (newMarshalerType origName origPkgPath styp).1.Fields, isPointer mf.typ = true := by
  intro mf hmf
  have hFields : (newMarshalerType origName origPkgPath styp).1.Fields =
      (styp.filter (fun sf => sf.var.exported && !sf.var.anonymous)).map
        (fun sf => { field := sf.var, tag := sf.tag, typ := ensurePointer sf.var.typ }) := by
    unfold newMarshalerType
    rw [collectFields_eq]
  rw [hFields] at hmf
  rcases List.mem_map.mp hmf with ⟨sf, _, rfl⟩
  exact ensurePointer_isPointer sf.var.typ

/-! ### Claim C1 -/

/-- Original type for the C1 analysis: a single exported,
non-embedded field `F` of type `string`. -/
def mC1 : MarshalerType :=
  { OrigName := "T", Name := "TJSON",
    Fields := [{ field := { name := "F", typ := .basic "string", exported := true,
                            anonymous := false, pos := "a.go:3" },
                 tag := [], typ := ensurePointer (.basic "string") }],
    origPkgPath := "p" }

/-- Override field for the C1 analysis: `F` redeclared at type `int`.
`int` is convertible to `string` (Go's integer-to-string conversion),
but `string` is not convertible to `int`, and neither direction of the
pointer-normalized comparison holds. -/
def ovC1 : Var :=
  { name := "F", typ := .basic "int", exported := true, anonymous := false, pos := "a.go:9" }

/-- Result of merging `ovC1` into `mC1`: the wire type becomes the
pointer-wrapped override type. -/
def mC1ok : MarshalerType :=
  { OrigName := "T", Name := "TJSON",
    Fields := [{ field := { name := "F", typ := .basic "string", exported := true,
                            anonymous := false, pos := "a.go:3" },
                 tag := [], typ := .pointer (.basic "int") }],
    origPkgPath := "p" }

/-- Claim C1 counterexample: `loadOverrides` accepts an override whose
type is convertible to the original declared type in one direction
only — it succeeds although the reverse direction fails and although
the comparison on pointer-normalized forms fails in both directions,
contradicting the claim that success requires bidirectional,
pointer-normalized convertibility.  The check actually performed is
the single unnormalized `ConvertibleTo(override, original)`. -/
theorem loadOverrides_not_bidirectional :
    loadOverrides mC1 [ovC1] = .ok mC1ok ∧
    ConvertibleTo (.basic "string") (.basic "int") = false ∧
    ConvertibleTo (ensurePointer (.basic "int")) (ensurePointer (.basic "string")) = false ∧
    ConvertibleTo (ensurePointer (.basic "string")) (ensurePointer (.basic "int")) = false :=
  ⟨rfl, rfl, rfl, rfl⟩

/-- Claim C1 (amended): a successful override merge implies, for every
override field, that the field is exported and not embedded, that a
field of the original type matches by name, and that the override
field's declared type is convertible to the matched field's original
declared type in the single, unnormalized direction the code checks;
and (for duplicate-free override field names, as Go struct types
guarantee) the matched field's wire type is replaced by the
pointer-wrapped override type. -/
theorem loadOverrides_forward_convertibility (m : MarshalerType) (ofs : List Var)
    (m' : MarshalerType) (h : loadOverrides m ofs = .ok m')
    (hnd : (ofs.map (fun o => o.name)).Nodup) :
    (ofs.all (fun of => of.exported && !of.anonymous &&
      (match fieldByName m.Fields of.name with
       | some f => ConvertibleTo of.typ f.field.typ
       | none => false))) = true ∧
    (ofs.all (fun of =>
      match fieldByName m'.Fields of.name with
      | some f' => f'.typ == ensurePointer of.typ
      | none => false)) = true := by
  constructor
  · rw [List.all_eq_true]
    intro of hof
    rcases loadOverrides_ok_forward ofs m m' h of hof with ⟨he, ha, f, hf, hc⟩
    rw [hf]
    simp [he, ha, hc]
  · rw [List.all_eq_true]
    intro of hof
    rcases loadOverrides_replaces ofs m m' h hnd of hof with ⟨f', hf', ht⟩
    rw [hf']
    simp [ht]

/-- Witness for the amended C1 theorem: the concrete merge of `ovC1`
into `mC1` succeeds and satisfies the characterization. -/
theorem loadOverrides_forward_convertibility_witness :
    ([ovC1].all (fun of => of.exported && !of.anonymous &&
      (match fieldByName mC1.Fields of.name with
       | some f => ConvertibleTo of.typ f.field.typ
       | none => false))) = true ∧
    ([ovC1].all (fun of =>
      match fieldByName mC1ok.Fields of.name with
      | some f' => f'.typ == ensurePointer of.typ
      | none => false)) = true :=
  loadOverrides_forward_convertibility mC1 [ovC1] mC1ok rfl (by decide)

/-! ### Claim C10 -/

/-- Claim C10: every field of the wire record has a pointer-wrapped
type at all times after construction — `newMarshalerType` assigns each
field the pointer-wrapped form of its declared type, and a successful
`loadOverrides` preserves the invariant because it re-wraps the
replacement type with `ensurePointer`. -/
theorem wireType_always_pointer (origName origPkgPath : String) (styp : List StructField)
    (ofs : List Var) (m' : MarshalerType)
    (h : loadOverrides (newMarshalerType origName origPkgPath styp).1 ofs = .ok m') :
    ((newMarshalerType origName origPkgPath styp).1.Fields.all
      (fun mf => isPointer mf.typ)) = true ∧
    (m'.Fields.all (fun mf => isPointer mf.typ)) = true := by
  constructor
  · rw [List.all_eq_true]
    exact newMarshalerType_fields_pointer origName origPkgPath styp
  · rw [List.all_eq_true]
    exact loadOverrides_preserves_pointer ofs _ m' h
      (newMarshalerType_fields_pointer origName origPkgPath styp)

/-- Input struct for the C10 witness. -/
def stypC10 : List StructField :=
  [{ var := { name := "A", typ := .basic "string", exported := true,
              anonymous := false, pos := "b.go:2" }, tag := [] }]

/-- Override list for the C10 witness: `A` overridden at its own type. -/
def ovsC10 : List Var :=
  [{ name := "A", typ := .basic "string", exported := true, anonymous := false,
     pos := "b.go:8" }]

/-- Result of the C10 witness merge. -/
def mC10 : MarshalerType :=
  { OrigName := "T", Name := "TJSON",
    Fields := [{ field := { name := "A", typ := .basic "string", exported := true,
                            anonymous := false, pos := "b.go:2" },
                 tag := [], typ := .pointer (.basic "string") }],
    origPkgPath := "p" }

/-- Witness for the C10 theorem at a concrete input. -/
theorem wireType_always_pointer_witness :
    ((newMarshalerType "T" "p" stypC10).1.Fields.all (fun mf => isPointer mf.typ)) = true ∧
    (mC10.Fields.all (fun mf => isPointer mf.typ)) = true :=
  wireType_always_pointer "T" "p" stypC10 ovsC10 mC10 rfl

/-! ### Claim C2 -/

/-- Marshaler type for the C2 analysis: one field whose type is a
named type from the external package `foo` (path `x/foo`), whose
display name is not otherwise used. -/
def mC2 : MarshalerType :=
  { OrigName := "T", Name := "TJSON",
    Fields := [{ field := { name := "F", typ := .named "foo" "x/foo" "Bar" (.basic "int"),
                            exported := true, anonymous := false, pos := "" },
                 tag := [],
                 typ := .pointer (.named "foo" "x/foo" "Bar" (.basic "int")) }],
    origPkgPath := "p" }

/-- Claim C2 counterexample: the display name `foo` is not bound in
the table when the namespace is first discovered (only the pre-seeded
`json` and `errors` entries exist), yet the assigned alias is the
marker-prefixed `_foo` rather than the unchanged display name: the
rename branch fires whenever the name is not bound to the namespace's
path, including when the name is not bound at all. -/
theorem computeImports_renames_fresh_namespace :
    (computeImports mC2).seen =
      [("json", "encoding/json"), ("errors", "errors"), ("_foo", "x/foo")] ∧
    lookupD (computeImports mC2).seen "foo" = "" :=
  ⟨rfl, rfl⟩

/-- Claim C2 (amended): for an external namespace, the registration
step leaves the table unchanged when the display name is already bound
to the namespace's canonical path; otherwise — including when the
display name is not bound at all — the alias is rewritten by prefixing
the marker, and the numeric counter suffix is appended exactly when
the marker-prefixed name is itself already bound. -/
theorem addImport_alias_characterization (st : ImportState) (name path : String) :
    (addImport st name path (some path)).seen =
      if lookupD st.seen name = path then st.seen
      else if lookupD st.seen ("_" ++ name) = "" then
        setAssoc st.seen ("_" ++ name) path
      else
        setAssoc st.seen ("_" ++ name ++ "_" ++ toString st.counter) path := by
  by_cases h1 : lookupD st.seen name = path
  · simp [addImport, h1]
  · by_cases h2 : lookupD st.seen ("_" ++ name) = ""
    · simp [addImport, h1, h2]
    · simp [addImport, h1, h2]

/-! ### Claim C9 -/

/-- Claim C9: the alias resolver and import emission are
deterministic.  `computeImports` is a pure function of the marshaler
type (its traversal follows the field list, never the table's
iteration order), and the rendered import block is invariant under the
enumeration order of the alias table because the emission template
sorts the entries by key: any run enumerating the same table in any
order emits the same import declarations. -/
theorem renderImports_deterministic (m : MarshalerType) (l : List (String × String))
    (h : l.Perm (computeImports m).seen) :
    renderImports l = renderImports ((computeImports m).seen) := by
  have hsort : sortImports l = sortImports ((computeImports m).seen) :=
    List.eq_of_perm_of_sorted
      ((List.perm_insertionSort importLE l).trans
        (h.trans (List.perm_insertionSort importLE _).symm))
      (List.sorted_insertionSort importLE l)
      (List.sorted_insertionSort importLE _)
  unfold renderImports
  rw [hsort]

/-- Marshaler type for the C9 witness: one field referencing the
external package `bar` (path `y/bar`). -/
def mC9 : MarshalerType :=
  { OrigName := "S", Name := "SJSON",
    Fields := [{ field := { name := "G", typ := .named "bar" "y/bar" "Baz" (.basic "int"),
                            exported := true, anonymous := false, pos := "" },
                 tag := [],
                 typ := .pointer (.named "bar" "y/bar" "Baz" (.basic "int")) }],
    origPkgPath := "q" }

/-- Witness for the C9 theorem: a shuffled enumeration of the computed
alias table renders to the same import block. -/
theorem renderImports_deterministic_witness :
    renderImports [("_bar", "y/bar"), ("errors", "errors"), ("json", "encoding/json")] =
      renderImports ((computeImports mC9).seen) :=
  renderImports_deterministic mC9
    [("_bar", "y/bar"), ("errors", "errors"), ("json", "encoding/json")] (by decide)
